import Mathlib

/-!
Verification of the compound-distribution core (`numpyro/distributions/conjugate.py`)
and the numerical utilities exercised by `test/test_util.py`.

Real-valued array arithmetic is embedded over `ℝ` (one batch element at a time;
broadcasting is modelled separately on shapes).  `jax.scipy.special.gammaln` /
`betaln` are embedded through Mathlib's `Real.Gamma`.
-/

namespace NumPyro

noncomputable section

/-- Embedding of `jax.scipy.special.gammaln`: the log-Gamma function (for positive arguments,
`log Γ(x)`). -/
def gammaln (x : ℝ) : ℝ := Real.log (Real.Gamma x)

/-- Embedding of `jax.scipy.special.betaln`: `log B(a, b) = log Γ(a) + log Γ(b) − log Γ(a+b)`. -/
def betaln (a b : ℝ) : ℝ := gammaln a + gammaln b - gammaln (a + b)

/-- Embedding of `jnp.log1p`. -/
def log1p (x : ℝ) : ℝ := Real.log (1 + x)

/-- Function `_log_beta_1(alpha, value)` from `conjugate.py`:
`gammaln(1 + value) + gammaln(alpha) - gammaln(value + alpha)`. -/
def log_beta_1 (alpha value : ℝ) : ℝ :=
  gammaln (1 + value) + gammaln alpha - gammaln (value + alpha)

/-- The spec's `logBetaCount(α, v) = logΓ(1+v) + logΓ(α) − logΓ(v+α)`
(count-normalization term), written from the spec's words for comparison with
the code's `_log_beta_1`. -/
def logBetaCount (alpha v : ℝ) : ℝ :=
  gammaln (1 + v) + gammaln alpha - gammaln (v + alpha)

namespace BetaBinomial

/-- Method `BetaBinomial.log_prob` from `conjugate.py`:
`-_log_beta_1(total_count - value + 1, value)
 + betaln(value + concentration1, total_count - value + concentration0)
 - betaln(concentration0, concentration1)`. -/
def log_prob (concentration1 concentration0 total_count value : ℝ) : ℝ :=
  -log_beta_1 (total_count - value + 1) value +
    betaln (value + concentration1) (total_count - value + concentration0) -
    betaln concentration0 concentration1

/-- Method `BetaBinomial.mean` from `conjugate.py`: `Beta(c1, c0).mean * total_count`
with `Beta.mean = c1 / (c1 + c0)`. -/
def mean (concentration1 concentration0 total_count : ℝ) : ℝ :=
  concentration1 / (concentration1 + concentration0) * total_count

end BetaBinomial

namespace DirichletMultinomial

/-- Method `DirichletMultinomial.log_prob` from `conjugate.py`:
`_log_beta_1(alpha.sum(-1), value.sum(-1)) - _log_beta_1(alpha, value).sum(-1)`
for one batch element with `k` categories. -/
def log_prob {k : ℕ} (concentration value : Fin k → ℝ) : ℝ :=
  log_beta_1 (∑ i, concentration i) (∑ i, value i) -
    ∑ i, log_beta_1 (concentration i) (value i)

end DirichletMultinomial

namespace GammaPoisson

/-- Method `GammaPoisson.log_prob` from `conjugate.py`: with `post_value = concentration + value`,
`-betaln(concentration, value + 1) - log(post_value)
 + concentration * log(rate) - post_value * log1p(rate)`. -/
def log_prob (concentration rate value : ℝ) : ℝ :=
  -betaln concentration (value + 1) - Real.log (concentration + value) +
    concentration * Real.log rate - (concentration + value) * log1p rate

/-- Method `GammaPoisson.mean` from `conjugate.py`: `concentration / rate`. -/
def mean (concentration rate : ℝ) : ℝ := concentration / rate

/-- Method `GammaPoisson.variance` from `conjugate.py`:
`concentration / square(rate) * (1 + rate)`. -/
def variance (concentration rate : ℝ) : ℝ :=
  concentration / rate ^ 2 * (1 + rate)

end GammaPoisson

/-! ### Sampling structure (`sample` methods of `conjugate.py`)

The external pieces are abstract: `split` stands for `jax.random.split`
(returning the pair of sub-keys), and the prior / likelihood samplers stand for
the `sample` methods of the prior and likelihood sub-distributions. -/

/-- Method `BetaBinomial.sample` from `conjugate.py`:
`key_beta, key_binom = random.split(key)`;
`probs = self._beta.sample(key_beta)`;
`return BinomialProbs(total_count, probs).sample(key_binom)`. -/
def BetaBinomial.sample {K Θ Ω : Type} (split : K → K × K)
    (beta_sample : K → Θ) (binomial_sample : Θ → K → Ω) (key : K) : Ω :=
  let key_beta := (split key).1
  let key_binom := (split key).2
  let probs := beta_sample key_beta
  binomial_sample probs key_binom

/-- Method `DirichletMultinomial.sample` from `conjugate.py`:
`key_dirichlet, key_multinom = random.split(key)`;
`probs = self._dirichlet.sample(key_dirichlet)`;
`return MultinomialProbs(total_count, probs).sample(key_multinom)`. -/
def DirichletMultinomial.sample {K Θ Ω : Type} (split : K → K × K)
    (dirichlet_sample : K → Θ) (multinomial_sample : Θ → K → Ω) (key : K) : Ω :=
  let key_dirichlet := (split key).1
  let key_multinom := (split key).2
  let probs := dirichlet_sample key_dirichlet
  multinomial_sample probs key_multinom

/-- Method `GammaPoisson.sample` from `conjugate.py`:
`key_gamma, key_poisson = random.split(key)`;
`rate = self._gamma.sample(key_gamma)`;
`return Poisson(rate).sample(key_poisson)`. -/
def GammaPoisson.sample {K Θ Ω : Type} (split : K → K × K)
    (gamma_sample : K → Θ) (poisson_sample : Θ → K → Ω) (key : K) : Ω :=
  let key_gamma := (split key).1
  let key_poisson := (split key).2
  let rate := gamma_sample key_gamma
  poisson_sample rate key_poisson

/-! ### Stabilized log products -/

/-- Modelled from the spec: `xlogy(x, y)` lives in `numpyro/distributions/util.py`,
which is not under `src/` — "computes `x * log(y)`, defined as `0` whenever
`x == 0` regardless of `y` (including `y = 0` or `y < 0`)". -/
def xlogy (x y : ℝ) : ℝ := if x = 0 then 0 else x * Real.log y

/-- Modelled from the spec: `xlog1py(x, y)` (same file, not under `src/`) —
"computes `x * log(1 + y)` with the same zero-guard on `x`". -/
def xlog1py (x y : ℝ) : ℝ := if x = 0 then 0 else x * log1p y

/-! ### Validated log-density -/

/-- Modelled from the spec: the `@validate_sample` decorator and the constraint
classes (`numpyro/distributions/util.py` and `constraints.py`, not under `src/`)
— with validation enabled, `log_prob` "raises a validation failure when `value`
lies outside the declared support"; the failure is modelled as `none`, and
`BetaBinomial.support` is the integer interval `[0, total_count]`
(`conjugate.py`). -/
def BetaBinomial.checked_log_prob (c1 c0 : ℝ) (n : ℕ) (v : ℤ) : Option ℝ :=
  if 0 ≤ v ∧ v ≤ (n : ℤ) then some (BetaBinomial.log_prob c1 c0 n (v : ℝ)) else none

/-- Modelled from the spec, as above; `DirichletMultinomial.support` is the
multinomial count set of `total_count` (`conjugate.py`): nonnegative integer
vectors summing to `total_count`. -/
def DirichletMultinomial.checked_log_prob {k : ℕ} (alpha : Fin k → ℝ) (n : ℕ)
    (v : Fin k → ℤ) : Option ℝ :=
  if (∀ i, 0 ≤ v i) ∧ (∑ i, v i) = (n : ℤ) then
    some (DirichletMultinomial.log_prob alpha fun i => ((v i : ℤ) : ℝ))
  else none

/-- Modelled from the spec, as above; `GammaPoisson.support` is the set of
nonnegative integers (`conjugate.py`). -/
def GammaPoisson.checked_log_prob (c rate : ℝ) (v : ℤ) : Option ℝ :=
  if 0 ≤ v then some (GammaPoisson.log_prob c rate (v : ℝ)) else none

/-! ### Batch-shape computation of the constructors

Shapes are lists of dimension sizes.  `lax.broadcast_shapes` follows NumPy
broadcasting: shapes align on their trailing axes, and a dimension broadcasts
against an equal dimension or against `1`. -/

/-- One dimension of NumPy broadcasting. -/
def broadcastDim (a b : ℕ) : Option ℕ :=
  if a = b then some a else if a = 1 then some b else if b = 1 then some a else none

/-- Broadcasting of two shapes given with their trailing axis first. -/
def broadcastRev : List ℕ → List ℕ → Option (List ℕ)
  | [], t => some t
  | a :: s, [] => some (a :: s)
  | a :: s, b :: t =>
    match broadcastRev s t, broadcastDim a b with
    | some r, some d => some (d :: r)
    | _, _ => none

/-- Model of `lax.broadcast_shapes` on two shapes. -/
def broadcast2 (s t : List ℕ) : Option (List ℕ) :=
  (broadcastRev s.reverse t.reverse).map List.reverse

/-- Model of `lax.broadcast_shapes` on three shapes. -/
def broadcast3 (s t u : List ℕ) : Option (List ℕ) :=
  (broadcast2 s t).bind fun r => broadcast2 r u

/-- Modelled from the spec: `promote_shapes` (`numpyro/distributions/util.py`,
not under `src/`) — "all constructor parameters are broadcast to one common
batch shape before storage".  Broadcasting an array of shape `s` to a target
shape `t` succeeds exactly when `s` broadcasts against `t` without changing it. -/
def broadcast_to (s t : List ℕ) : Option (List ℕ) :=
  if broadcast2 s t = some t then some t else none

/-- Shape bookkeeping of `BetaBinomial.__init__` (`conjugate.py`):
`batch_shape = lax.broadcast_shapes(shape c1, shape c0, shape n)`, and the three
stored parameters are broadcast to it (`promote_shapes`, modelled from the
spec).  Returns `(batch_shape, stored c1, stored c0, stored total_count)`. -/
def BetaBinomial.init_shapes (s1 s0 sn : List ℕ) :
    Option (List ℕ × List ℕ × List ℕ × List ℕ) :=
  (broadcast3 s1 s0 sn).bind fun batch_shape =>
  (broadcast_to s1 batch_shape).bind fun p1 =>
  (broadcast_to s0 batch_shape).bind fun p0 =>
  (broadcast_to sn batch_shape).map fun pn => (batch_shape, p1, p0, pn)

/-- Shape bookkeeping of `DirichletMultinomial.__init__` (`conjugate.py`):
`concentration` must be at least one-dimensional (else `ValueError`, modelled as
`none`); `batch_shape = lax.broadcast_shapes(shape(concentration)[:-1],
shape(total_count))`; the stored concentration has shape `batch_shape +
shape(concentration)[-1:]` and the stored total_count has shape `batch_shape`.
Returns `(batch_shape, stored concentration, stored total_count)`. -/
def DirichletMultinomial.init_shapes (sa sn : List ℕ) :
    Option (List ℕ × List ℕ × List ℕ) :=
  match sa.getLast? with
  | none => none
  | some e =>
      (broadcast2 sa.dropLast sn).bind fun batch_shape =>
      (broadcast_to sa (batch_shape ++ [e])).bind fun pa =>
      (broadcast_to sn batch_shape).map fun pn => (batch_shape, pa, pn)

/-- Shape bookkeeping of `GammaPoisson.__init__` (`conjugate.py`): the stored
parameters are promoted, and `batch_shape` is the underlying
`Gamma(concentration, rate).batch_shape`, i.e. the broadcast of the two
parameter shapes (`Gamma` lives in `continuous.py`, not under `src/`; modelled
from the spec).  Returns `(batch_shape, stored concentration, stored rate)`. -/
def GammaPoisson.init_shapes (sc sr : List ℕ) :
    Option (List ℕ × List ℕ × List ℕ) :=
  (broadcast2 sc sr).bind fun batch_shape =>
  (broadcast_to sc batch_shape).bind fun pc =>
  (broadcast_to sr batch_shape).map fun pr => (batch_shape, pc, pr)

/-! ### Welford covariance -/

/-- State of the streaming covariance estimator in full-matrix mode:
count, mean vector, and raw second-moment accumulator. -/
structure WelfordState (d : ℕ) where
  n : ℕ
  mean : Fin d → ℝ
  m2 : Fin d → Fin d → ℝ

/-- State of the streaming covariance estimator in diagonal mode. -/
structure WelfordDiagState (d : ℕ) where
  n : ℕ
  mean : Fin d → ℝ
  m2 : Fin d → ℝ

/-- Modelled from the spec: `welford_covariance` (`numpyro/util.py`, not under
`src/`) — `init(dim)` "zeroes count, mean, and (dim × dim) or (dim) moment
accumulator". -/
def wc_init (d : ℕ) : WelfordState d := ⟨0, fun _ => 0, fun _ _ => 0⟩

/-- Modelled from the spec: `update(sample, state)` — "increments count `n`;
`delta = sample - mean`; `mean += delta / n`; accumulator += outer product
of `delta` and `(sample - mean)` (using the updated mean)". -/
def wc_update {d : ℕ} (sample : Fin d → ℝ) (s : WelfordState d) : WelfordState d :=
  let n := s.n + 1
  let delta := fun i => sample i - s.mean i
  let mean := fun i => s.mean i + delta i / (n : ℝ)
  ⟨n, mean, fun i j => s.m2 i j + delta i * (sample j - mean j)⟩

/-- Modelled from the spec: `finalize(state, regularize)` — "covariance =
accumulator / (n - 1); if `regularize`, blend:
`cov = cov * n/(n+5) + 1e-3 * (5/(n+5)) * I`". -/
def wc_final {d : ℕ} (s : WelfordState d) (regularize : Bool) : Fin d → Fin d → ℝ :=
  let cov := fun i j => s.m2 i j / ((s.n : ℝ) - 1)
  if regularize then
    fun i j => cov i j * (s.n : ℝ) / ((s.n : ℝ) + 5)
      + (1 / 1000) * (5 / ((s.n : ℝ) + 5)) * (if i = j then 1 else 0)
  else cov

/-- Modelled from the spec: the diagonal mode of `welford_covariance`
(elementwise square of `delta` and `(sample - mean)` in place of the outer
product). -/
def wc_diag_init (d : ℕ) : WelfordDiagState d := ⟨0, fun _ => 0, fun _ => 0⟩

/-- Modelled from the spec: diagonal-mode `update`. -/
def wc_diag_update {d : ℕ} (sample : Fin d → ℝ) (s : WelfordDiagState d) :
    WelfordDiagState d :=
  let n := s.n + 1
  let delta := fun i => sample i - s.mean i
  let mean := fun i => s.mean i + delta i / (n : ℝ)
  ⟨n, mean, fun i => s.m2 i + delta i * (sample i - mean i)⟩

/-- Modelled from the spec: diagonal-mode `finalize` — "same blend in diagonal
form using a vector of ones instead of `I`". -/
def wc_diag_final {d : ℕ} (s : WelfordDiagState d) (regularize : Bool) :
    Fin d → ℝ :=
  let cov := fun i => s.m2 i / ((s.n : ℝ) - 1)
  if regularize then
    fun i => cov i * (s.n : ℝ) / ((s.n : ℝ) + 5)
      + (1 / 1000) * (5 / ((s.n : ℝ) + 5)) * 1
  else cov

/-- Run of `init` followed by one `update` per sample, in order. -/
def wc_run {d : ℕ} (xs : List (Fin d → ℝ)) : WelfordState d :=
  xs.foldl (fun s x => wc_update x s) (wc_init d)

/-- Diagonal-mode `init` followed by one `update` per sample, in order. -/
def wc_diag_run {d : ℕ} (xs : List (Fin d → ℝ)) : WelfordDiagState d :=
  xs.foldl (fun s x => wc_diag_update x s) (wc_diag_init d)

/-- The sample mean of a list of vectors, coordinatewise (spec side of C8). -/
def sampleMean {d : ℕ} (xs : List (Fin d → ℝ)) (i : Fin d) : ℝ :=
  (xs.map fun x => x i).sum / (xs.length : ℝ)

/-- The spec's "sum over samples of the outer product of (sample − sample mean)
with itself", entrywise (spec side of C8). -/
def sampleCov {d : ℕ} (xs : List (Fin d → ℝ)) (i j : Fin d) : ℝ :=
  (xs.map fun x => (x i - sampleMean xs i) * (x j - sampleMean xs j)).sum

end

/-! ### Small Gamma-function facts used below -/

lemma Gamma_pos {x : ℝ} (hx : 0 < x) : 0 < Real.Gamma x :=
  Real.Gamma_pos_of_pos hx

lemma Gamma_ofNat_succ (n : ℕ) : Real.Gamma ((n : ℝ) + 1) = (Nat.factorial n : ℝ) := by
  exact_mod_cast Real.Gamma_nat_eq_factorial n

lemma Gamma_two : Real.Gamma 2 = 1 := by
  simpa [Nat.factorial] using Gamma_ofNat_succ 1

lemma Gamma_three : Real.Gamma 3 = 2 := by
  simpa [Nat.factorial] using Gamma_ofNat_succ 2

lemma Gamma_four : Real.Gamma 4 = 6 := by
  simpa [Nat.factorial] using Gamma_ofNat_succ 3

lemma Gamma_six : Real.Gamma 6 = 120 := by
  simpa [Nat.factorial] using Gamma_ofNat_succ 5

lemma Gamma_seven : Real.Gamma 7 = 720 := by
  simpa [Nat.factorial] using Gamma_ofNat_succ 6

lemma Gamma_shift1 {x : ℝ} (hx : 0 < x) : Real.Gamma (1 + x) = x * Real.Gamma x := by
  rw [add_comm, Real.Gamma_add_one hx.ne']

lemma Gamma_shift2 {x : ℝ} (hx : 0 < x) :
    Real.Gamma (2 + x) = (1 + x) * (x * Real.Gamma x) := by
  have h1 : (2 : ℝ) + x = (1 + x) + 1 := by ring
  rw [h1, Real.Gamma_add_one (by positivity), Gamma_shift1 hx]

lemma Gamma_shift3 {x : ℝ} (hx : 0 < x) :
    Real.Gamma (3 + x) = (2 + x) * ((1 + x) * (x * Real.Gamma x)) := by
  have h1 : (3 : ℝ) + x = (2 + x) + 1 := by ring
  rw [h1, Real.Gamma_add_one (by positivity), Gamma_shift2 hx]

/-! ### C1: BetaBinomial log-density closed form -/

lemma exp_betaBinomial_uniform (w : ℝ) :
    Real.exp (BetaBinomial.log_prob 1 1 5 w) = 1 / 6 := by
  have e1 : BetaBinomial.log_prob 1 1 5 w = Real.log 120 - Real.log 720 := by
    simp only [BetaBinomial.log_prob, log_beta_1, betaln, gammaln]
    rw [show w + (5 - w + 1) = (6 : ℝ) from by ring,
      show w + 1 + (5 - w + 1) = (7 : ℝ) from by ring,
      show (1 : ℝ) + 1 = 2 from by norm_num,
      show (1 : ℝ) + w = w + 1 from by ring,
      Real.Gamma_one, Gamma_two, Gamma_six, Gamma_seven, Real.log_one]
    ring
  rw [e1, Real.exp_sub, Real.exp_log (by norm_num : (0:ℝ) < 120),
    Real.exp_log (by norm_num : (0:ℝ) < 720)]
  norm_num

/-- C1: for concentrations c1, c0 > 0, nonnegative integer total count n and
integer 0 ≤ v ≤ n, `BetaBinomial.log_prob` equals the closed-form marginal
`logBeta(v+c1, n-v+c0) − logBeta(c0, c1) − logBetaCount(n−v+1, v)`; in
particular for c1 = c0 = 1 and n = 5 the probability `exp (log_prob w)` is
1/6 for every integer 0 ≤ w ≤ 5. -/
theorem betaBinomial_log_prob_marginal (c1 c0 : ℝ) (h1 : 0 < c1) (h0 : 0 < c0)
    (n v : ℕ) (hv : v ≤ n) (w : ℕ) (hw : w ≤ 5) :
    BetaBinomial.log_prob c1 c0 n v
        = betaln (v + c1) (n - v + c0) - betaln c0 c1
          - logBetaCount ((n : ℝ) - v + 1) v
      ∧ Real.exp (BetaBinomial.log_prob 1 1 5 w) = 1 / 6 := by
  constructor
  · simp only [BetaBinomial.log_prob, log_beta_1, logBetaCount]
    ring
  · exact exp_betaBinomial_uniform w

theorem betaBinomial_log_prob_marginal_witness :
    BetaBinomial.log_prob 1 1 ((5 : ℕ) : ℝ) ((2 : ℕ) : ℝ)
        = betaln (((2 : ℕ) : ℝ) + 1) (((5 : ℕ) : ℝ) - ((2 : ℕ) : ℝ) + 1)
          - betaln 1 1 - logBetaCount (((5 : ℕ) : ℝ) - ((2 : ℕ) : ℝ) + 1) ((2 : ℕ) : ℝ)
      ∧ Real.exp (BetaBinomial.log_prob 1 1 5 ((3 : ℕ) : ℝ)) = 1 / 6 :=
  betaBinomial_log_prob_marginal 1 1 one_pos one_pos 5 2 (by norm_num) 3 (by norm_num)

/-! ### C10: BetaBinomial swap/reflect symmetry -/

/-- C10: for c1, c0 > 0, nonnegative integer n and integer 0 ≤ v ≤ n,
`BetaBinomial(c1, c0, n).log_prob v = BetaBinomial(c0, c1, n).log_prob (n - v)`:
the log-density is invariant under swapping the concentrations and reflecting
the value. -/
theorem betaBinomial_log_prob_swap_reflect (c1 c0 : ℝ) (h1 : 0 < c1) (h0 : 0 < c0)
    (n v : ℕ) (hv : v ≤ n) :
    BetaBinomial.log_prob c1 c0 n v = BetaBinomial.log_prob c0 c1 n ((n : ℝ) - v) := by
  simp only [BetaBinomial.log_prob, log_beta_1, betaln, gammaln]
  ring_nf

theorem betaBinomial_log_prob_swap_reflect_witness :
    BetaBinomial.log_prob 2 3 ((5 : ℕ) : ℝ) ((1 : ℕ) : ℝ)
      = BetaBinomial.log_prob 3 2 ((5 : ℕ) : ℝ) (((5 : ℕ) : ℝ) - ((1 : ℕ) : ℝ)) :=
  betaBinomial_log_prob_swap_reflect 2 3 (by norm_num) (by norm_num) 5 1 (by norm_num)

/-! ### C2: DirichletMultinomial log-density closed form and normalization -/

lemma exp_log_beta_1 (alpha v : ℝ) (h1 : 0 < 1 + v) (h2 : 0 < alpha)
    (h3 : 0 < v + alpha) :
    Real.exp (log_beta_1 alpha v)
      = Real.Gamma (1 + v) * Real.Gamma alpha / Real.Gamma (v + alpha) := by
  simp only [log_beta_1, gammaln]
  rw [Real.exp_sub, Real.exp_add, Real.exp_log (Gamma_pos h1),
    Real.exp_log (Gamma_pos h2), Real.exp_log (Gamma_pos h3)]

lemma dm_log_prob_two (a b x y : ℝ) :
    DirichletMultinomial.log_prob ![a, b] ![x, y]
      = log_beta_1 (a + b) (x + y) - (log_beta_1 a x + log_beta_1 b y) := by
  simp [DirichletMultinomial.log_prob, Fin.sum_univ_two]

lemma exp_dm_two (a b x y : ℝ) (ha : 0 < a) (hb : 0 < b)
    (hx : 0 < 1 + x) (hy : 0 < 1 + y) (hxa : 0 < x + a) (hyb : 0 < y + b)
    (hxy : 0 < 1 + (x + y)) (hs : 0 < x + y + (a + b)) :
    Real.exp (DirichletMultinomial.log_prob ![a, b] ![x, y])
      = Real.Gamma (1 + (x + y)) * Real.Gamma (a + b) / Real.Gamma (x + y + (a + b)) /
        (Real.Gamma (1 + x) * Real.Gamma a / Real.Gamma (x + a) *
          (Real.Gamma (1 + y) * Real.Gamma b / Real.Gamma (y + b))) := by
  rw [dm_log_prob_two, Real.exp_sub, Real.exp_add,
    exp_log_beta_1 _ _ hxy (by linarith) hs,
    exp_log_beta_1 _ _ hx ha hxa, exp_log_beta_1 _ _ hy hb hyb]

lemma dm_p03 (a b : ℝ) (ha : 0 < a) (hb : 0 < b) :
    Real.exp (DirichletMultinomial.log_prob ![a, b] ![0, 3])
      = (2 + b) * ((1 + b) * b) / ((2 + (a + b)) * ((1 + (a + b)) * (a + b))) := by
  rw [exp_dm_two a b 0 3 ha hb (by norm_num) (by norm_num) (by linarith)
    (by linarith) (by norm_num) (by linarith)]
  rw [show (1 : ℝ) + (0 + 3) = 4 from by norm_num,
    show (0 : ℝ) + 3 + (a + b) = 3 + (a + b) from by ring,
    show (1 : ℝ) + 0 = 1 from by norm_num,
    show (0 : ℝ) + a = a from by ring,
    show (1 : ℝ) + 3 = 4 from by norm_num,
    Gamma_shift3 (show (0:ℝ) < a + b from by linarith), Gamma_shift3 hb,
    Real.Gamma_one, Gamma_four]
  have hGa := (Gamma_pos ha).ne'
  have hGb := (Gamma_pos hb).ne'
  have hGab := (Gamma_pos (show (0:ℝ) < a + b from by linarith)).ne'
  have n1 : (2 : ℝ) + (a + b) ≠ 0 := by positivity
  have n2 : (1 : ℝ) + (a + b) ≠ 0 := by positivity
  have n3 : a + b ≠ 0 := by positivity
  have n4 : (2 : ℝ) + b ≠ 0 := by positivity
  have n5 : (1 : ℝ) + b ≠ 0 := by positivity
  field_simp
  ring

lemma dm_p12 (a b : ℝ) (ha : 0 < a) (hb : 0 < b) :
    Real.exp (DirichletMultinomial.log_prob ![a, b] ![1, 2])
      = 3 * (a * ((1 + b) * b)) / ((2 + (a + b)) * ((1 + (a + b)) * (a + b))) := by
  rw [exp_dm_two a b 1 2 ha hb (by norm_num) (by norm_num) (by linarith)
    (by linarith) (by norm_num) (by linarith)]
  rw [show (1 : ℝ) + (1 + 2) = 4 from by norm_num,
    show (1 : ℝ) + 2 + (a + b) = 3 + (a + b) from by ring,
    show (1 : ℝ) + 1 = 2 from by norm_num,
    show (1 : ℝ) + a = a + 1 from by ring,
    show (1 : ℝ) + 2 = 3 from by norm_num,
    show (2 : ℝ) + b = 2 + b from by ring,
    Gamma_shift3 (show (0:ℝ) < a + b from by linarith),
    Real.Gamma_add_one ha.ne', Gamma_shift2 hb,
    Gamma_two, Gamma_three, Gamma_four]
  have hGa := (Gamma_pos ha).ne'
  have hGb := (Gamma_pos hb).ne'
  have hGab := (Gamma_pos (show (0:ℝ) < a + b from by linarith)).ne'
  have n1 : (2 : ℝ) + (a + b) ≠ 0 := by positivity
  have n2 : (1 : ℝ) + (a + b) ≠ 0 := by positivity
  have n3 : a + b ≠ 0 := by positivity
  have n4 : (1 : ℝ) + b ≠ 0 := by positivity
  have n5 : a ≠ 0 := ha.ne'
  have n6 : b ≠ 0 := hb.ne'
  field_simp
  ring

lemma dm_p21 (a b : ℝ) (ha : 0 < a) (hb : 0 < b) :
    Real.exp (DirichletMultinomial.log_prob ![a, b] ![2, 1])
      = 3 * (((1 + a) * a) * b) / ((2 + (a + b)) * ((1 + (a + b)) * (a + b))) := by
  rw [exp_dm_two a b 2 1 ha hb (by norm_num) (by norm_num) (by linarith)
    (by linarith) (by norm_num) (by linarith)]
  rw [show (1 : ℝ) + (2 + 1) = 4 from by norm_num,
    show (2 : ℝ) + 1 + (a + b) = 3 + (a + b) from by ring,
    show (1 : ℝ) + 2 = 3 from by norm_num,
    show (1 : ℝ) + 1 = 2 from by norm_num,
    show (1 : ℝ) + b = b + 1 from by ring,
    Gamma_shift3 (show (0:ℝ) < a + b from by linarith),
    Gamma_shift2 ha, Real.Gamma_add_one hb.ne',
    Gamma_two, Gamma_three, Gamma_four]
  have hGa := (Gamma_pos ha).ne'
  have hGb := (Gamma_pos hb).ne'
  have hGab := (Gamma_pos (show (0:ℝ) < a + b from by linarith)).ne'
  have n1 : (2 : ℝ) + (a + b) ≠ 0 := by positivity
  have n2 : (1 : ℝ) + (a + b) ≠ 0 := by positivity
  have n3 : a + b ≠ 0 := by positivity
  have n4 : (1 : ℝ) + a ≠ 0 := by positivity
  have n5 : a ≠ 0 := ha.ne'
  have n6 : b ≠ 0 := hb.ne'
  field_simp
  ring

lemma dm_p30 (a b : ℝ) (ha : 0 < a) (hb : 0 < b) :
    Real.exp (DirichletMultinomial.log_prob ![a, b] ![3, 0])
      = (2 + a) * ((1 + a) * a) / ((2 + (a + b)) * ((1 + (a + b)) * (a + b))) := by
  rw [exp_dm_two a b 3 0 ha hb (by norm_num) (by norm_num) (by linarith)
    (by linarith) (by norm_num) (by linarith)]
  rw [show (1 : ℝ) + (3 + 0) = 4 from by norm_num,
    show (3 : ℝ) + 0 + (a + b) = 3 + (a + b) from by ring,
    show (1 : ℝ) + 3 = 4 from by norm_num,
    show (1 : ℝ) + 0 = 1 from by norm_num,
    show (0 : ℝ) + b = b from by ring,
    Gamma_shift3 (show (0:ℝ) < a + b from by linarith), Gamma_shift3 ha,
    Real.Gamma_one, Gamma_four]
  have hGa := (Gamma_pos ha).ne'
  have hGb := (Gamma_pos hb).ne'
  have hGab := (Gamma_pos (show (0:ℝ) < a + b from by linarith)).ne'
  have n1 : (2 : ℝ) + (a + b) ≠ 0 := by positivity
  have n2 : (1 : ℝ) + (a + b) ≠ 0 := by positivity
  have n3 : a + b ≠ 0 := by positivity
  have n4 : (2 : ℝ) + a ≠ 0 := by positivity
  have n5 : (1 : ℝ) + a ≠ 0 := by positivity
  field_simp
  ring

/-- C2: `DirichletMultinomial.log_prob` equals
`logBetaCount(Σα, Σv) − Σᵢ logBetaCount(αᵢ, vᵢ)` over the category axis, and
for 2 categories with total_count = 3 the probabilities `exp (log_prob ·)` of
the four integer compositions (0,3), (1,2), (2,1), (3,0) sum to 1 for every
positive concentration vector (a, b). -/
theorem dirichletMultinomial_log_prob_marginal {k : ℕ} (alpha value : Fin k → ℝ)
    (a b : ℝ) (ha : 0 < a) (hb : 0 < b) :
    DirichletMultinomial.log_prob alpha value
        = logBetaCount (∑ i, alpha i) (∑ i, value i)
          - ∑ i, logBetaCount (alpha i) (value i)
      ∧ Real.exp (DirichletMultinomial.log_prob ![a, b] ![0, 3])
          + Real.exp (DirichletMultinomial.log_prob ![a, b] ![1, 2])
          + Real.exp (DirichletMultinomial.log_prob ![a, b] ![2, 1])
          + Real.exp (DirichletMultinomial.log_prob ![a, b] ![3, 0]) = 1 := by
  constructor
  · rfl
  · rw [dm_p03 a b ha hb, dm_p12 a b ha hb, dm_p21 a b ha hb, dm_p30 a b ha hb]
    have n1 : (2 : ℝ) + (a + b) ≠ 0 := by positivity
    have n2 : (1 : ℝ) + (a + b) ≠ 0 := by positivity
    have n3 : a + b ≠ 0 := by positivity
    field_simp
    ring

theorem dirichletMultinomial_log_prob_marginal_witness :
    DirichletMultinomial.log_prob ![(1 : ℝ), 1] ![1, 2]
        = logBetaCount (∑ i, ![(1 : ℝ), 1] i) (∑ i, ![(1 : ℝ), 2] i)
          - ∑ i, logBetaCount (![(1 : ℝ), 1] i) (![(1 : ℝ), 2] i)
      ∧ Real.exp (DirichletMultinomial.log_prob ![(1 : ℝ), 1] ![0, 3])
          + Real.exp (DirichletMultinomial.log_prob ![(1 : ℝ), 1] ![1, 2])
          + Real.exp (DirichletMultinomial.log_prob ![(1 : ℝ), 1] ![2, 1])
          + Real.exp (DirichletMultinomial.log_prob ![(1 : ℝ), 1] ![3, 0]) = 1 :=
  dirichletMultinomial_log_prob_marginal ![(1 : ℝ), 1] ![(1 : ℝ), 2]
    1 1 one_pos one_pos

/-! ### C3 / C4: GammaPoisson log-density and moments -/

/-- C3: for every concentration α > 0, rate > 0 and nonnegative integer value v,
`GammaPoisson(α, rate).log_prob(v)` equals
`−logBeta(α, v+1) − log(α+v) + α·log(rate) − (α+v)·log1p(rate)`. -/
theorem gammaPoisson_log_prob_closed_form (concentration rate : ℝ) (v : ℕ)
    (hc : 0 < concentration) (hr : 0 < rate) :
    GammaPoisson.log_prob concentration rate v =
      -betaln concentration (v + 1) - Real.log (concentration + v) +
        concentration * Real.log rate - (concentration + v) * log1p rate := rfl

theorem gammaPoisson_log_prob_closed_form_witness :
    GammaPoisson.log_prob 1 2 3 =
      -betaln 1 ((3 : ℕ) + 1) - Real.log (1 + (3 : ℕ)) +
        1 * Real.log 2 - (1 + (3 : ℕ)) * log1p 2 :=
  gammaPoisson_log_prob_closed_form 1 2 3 (by norm_num) (by norm_num)

/-- C4: for every concentration > 0 and rate > 0, `GammaPoisson.mean` equals
`concentration/rate` and `GammaPoisson.variance` equals
`concentration/rate² · (1 + rate)`, as closed forms. -/
theorem gammaPoisson_moments (concentration rate : ℝ)
    (hc : 0 < concentration) (hr : 0 < rate) :
    GammaPoisson.mean concentration rate = concentration / rate ∧
      GammaPoisson.variance concentration rate =
        concentration / rate ^ 2 * (1 + rate) :=
  ⟨rfl, rfl⟩

theorem gammaPoisson_moments_witness :
    GammaPoisson.mean 3 2 = 3 / 2 ∧
      GammaPoisson.variance 3 2 = 3 / 2 ^ 2 * (1 + 2) :=
  gammaPoisson_moments 3 2 (by norm_num) (by norm_num)

/-! ### C5: key discipline of the compound samplers -/

/-- C5: every compound `sample` splits the key into exactly two sub-keys, draws
the latent parameter from the prior with the first sub-key, draws the
observation from the likelihood (parameterized by that draw) with the second,
and — whenever `split` yields two distinct sub-keys, as `jax.random.split`
does — never passes the same key value to both draws. -/
theorem compound_sample_key_discipline {K Θ Ω : Type}
    (split : K → K × K) (hsplit : ∀ k, (split k).1 ≠ (split k).2)
    (prior : K → Θ) (likelihood : Θ → K → Ω) (key : K) :
    BetaBinomial.sample split prior likelihood key
        = likelihood (prior (split key).1) (split key).2
      ∧ DirichletMultinomial.sample split prior likelihood key
        = likelihood (prior (split key).1) (split key).2
      ∧ GammaPoisson.sample split prior likelihood key
        = likelihood (prior (split key).1) (split key).2
      ∧ (split key).1 ≠ (split key).2 :=
  ⟨rfl, rfl, rfl, hsplit key⟩

theorem compound_sample_key_discipline_witness :
    BetaBinomial.sample (fun k : ℕ => (2 * k + 1, 2 * k + 2)) id
        (fun t k => t + k) 0 = 3
      ∧ DirichletMultinomial.sample (fun k : ℕ => (2 * k + 1, 2 * k + 2)) id
        (fun t k => t + k) 0 = 3
      ∧ GammaPoisson.sample (fun k : ℕ => (2 * k + 1, 2 * k + 2)) id
        (fun t k => t + k) 0 = 3
      ∧ (1 : ℕ) ≠ 2 := by
  exact compound_sample_key_discipline (fun k : ℕ => (2 * k + 1, 2 * k + 2))
    (fun k => by simp) id (fun t k => t + k) 0

/-! ### C9: zero-guard of the stabilized log products -/

/-- C9: whenever `x = 0`, `xlogy x y = 0` for every `y` (including `y = 0` and
`y < 0`), and `xlog1py` has the same zero-guard with `log1p y` in place of
`log y`. -/
theorem xlogy_xlog1py_zero_guard (y : ℝ) :
    xlogy 0 y = 0 ∧ xlog1py 0 y = 0 := by
  constructor <;> simp [xlogy, xlog1py]

/-! ### C7: support validation of `log_prob` -/

/-- C7: with validation enabled, each compound `log_prob` fails (returns `none`)
exactly when the value lies outside the declared support: the integer interval
`[0, total_count]` for BetaBinomial, the nonnegative integer vectors summing to
`total_count` for DirichletMultinomial, and the nonnegative integers for
GammaPoisson. -/
theorem compound_log_prob_validation (c1 c0 c rate : ℝ) {k : ℕ}
    (alpha : Fin k → ℝ) (n m : ℕ) (v : ℤ) (w : Fin k → ℤ) :
    (BetaBinomial.checked_log_prob c1 c0 n v = none ↔ ¬(0 ≤ v ∧ v ≤ (n : ℤ)))
      ∧ (DirichletMultinomial.checked_log_prob alpha m w = none
          ↔ ¬((∀ i, 0 ≤ w i) ∧ (∑ i, w i) = (m : ℤ)))
      ∧ (GammaPoisson.checked_log_prob c rate v = none ↔ ¬0 ≤ v) := by
  refine ⟨?_, ?_, ?_⟩
  · rw [BetaBinomial.checked_log_prob]
    split_ifs with h <;> simp [h]
  · rw [DirichletMultinomial.checked_log_prob]
    split_ifs with h <;> simp [h]
  · rw [GammaPoisson.checked_log_prob]
    split_ifs with h <;> simp [h]

/-! ### C6: batch shapes of the constructors -/

lemma broadcastDim_self (a : ℕ) : broadcastDim a a = some a := by
  simp [broadcastDim]

lemma broadcastDim_cases {a b d : ℕ} (h : broadcastDim a b = some d) :
    (a = d ∨ a = 1) ∧ (b = d ∨ b = 1) := by
  unfold broadcastDim at h
  split_ifs at h with h1 h2 h3
  · injection h with h; subst h; exact ⟨Or.inl rfl, Or.inl h1.symm⟩
  · injection h with h; subst h; exact ⟨Or.inr h2, Or.inl rfl⟩
  · injection h with h; subst h; exact ⟨Or.inl rfl, Or.inr h3⟩

lemma broadcastDim_of {a d : ℕ} (h : a = d ∨ a = 1) : broadcastDim a d = some d := by
  rcases h with rfl | rfl
  · exact broadcastDim_self a
  · by_cases h1 : (1 : ℕ) = d
    · subst h1
      exact broadcastDim_self 1
    · simp [broadcastDim, h1]

lemma broadcastRev_self (s : List ℕ) : broadcastRev s s = some s := by
  induction s with
  | nil => rfl
  | cons a s ih => simp [broadcastRev, ih, broadcastDim_self]

lemma broadcastRev_cons_inv {a b : ℕ} {s t r : List ℕ}
    (h : broadcastRev (a :: s) (b :: t) = some r) :
    ∃ r' d, broadcastRev s t = some r' ∧ broadcastDim a b = some d ∧ r = d :: r' := by
  rw [broadcastRev] at h
  cases h1 : broadcastRev s t with
  | none => rw [h1] at h; simp at h
  | some r' =>
    cases h2 : broadcastDim a b with
    | none => rw [h1, h2] at h; simp at h
    | some d =>
      rw [h1, h2] at h
      simp only [Option.some.injEq] at h
      exact ⟨r', d, rfl, rfl, h.symm⟩

lemma broadcastRev_absorb_left :
    ∀ (s t r : List ℕ), broadcastRev s t = some r → broadcastRev s r = some r := by
  intro s
  induction s with
  | nil =>
    intro t r h
    injection h with h
    subst h
    rfl
  | cons a s ih =>
    intro t r h
    cases t with
    | nil =>
      injection h with h
      subst h
      exact broadcastRev_self _
    | cons b t =>
      obtain ⟨r', d, h1, h2, rfl⟩ := broadcastRev_cons_inv h
      simp [broadcastRev, ih t r' h1, broadcastDim_of (broadcastDim_cases h2).1]

lemma broadcastRev_absorb_right :
    ∀ (s t r : List ℕ), broadcastRev s t = some r → broadcastRev t r = some r := by
  intro s
  induction s with
  | nil =>
    intro t r h
    injection h with h
    subst h
    exact broadcastRev_self t
  | cons a s ih =>
    intro t r h
    cases t with
    | nil =>
      injection h with h
      subst h
      rfl
    | cons b t =>
      obtain ⟨r', d, h1, h2, rfl⟩ := broadcastRev_cons_inv h
      simp [broadcastRev, ih t r' h1, broadcastDim_of (broadcastDim_cases h2).2]

lemma broadcastRev_trans :
    ∀ (s t u : List ℕ), broadcastRev s t = some t → broadcastRev t u = some u →
      broadcastRev s u = some u := by
  intro s
  induction s with
  | nil => intro t u _ _; rfl
  | cons a s ih =>
    intro t u h1 h2
    cases t with
    | nil =>
      injection h1 with h1
      exact absurd h1 (by simp)
    | cons m t' =>
      obtain ⟨r', d, hst, hdim, heq⟩ := broadcastRev_cons_inv h1
      injection heq with e1 e2
      subst e1
      subst e2
      cases u with
      | nil =>
        injection h2 with h2
        exact absurd h2 (by simp)
      | cons x u' =>
        obtain ⟨r2, d2, htu, hdim2, heq2⟩ := broadcastRev_cons_inv h2
        injection heq2 with e1 e2
        subst e1
        subst e2
        have hax : a = x ∨ a = 1 := by
          rcases (broadcastDim_cases hdim).1 with h | h
          · rcases (broadcastDim_cases hdim2).1 with h' | h'
            · exact Or.inl (h.trans h')
            · exact Or.inr (h.trans h')
          · exact Or.inr h
        simp [broadcastRev, ih t' u' hst htu, broadcastDim_of hax]

lemma broadcast2_absorb_left {s t r : List ℕ} (h : broadcast2 s t = some r) :
    broadcast2 s r = some r := by
  simp only [broadcast2, Option.map_eq_some'] at h
  obtain ⟨r0, h0, rfl⟩ := h
  have h1 := broadcastRev_absorb_left s.reverse t.reverse r0 h0
  simp only [broadcast2, List.reverse_reverse, h1, Option.map_some']

lemma broadcast2_absorb_right {s t r : List ℕ} (h : broadcast2 s t = some r) :
    broadcast2 t r = some r := by
  simp only [broadcast2, Option.map_eq_some'] at h
  obtain ⟨r0, h0, rfl⟩ := h
  have h1 := broadcastRev_absorb_right s.reverse t.reverse r0 h0
  simp only [broadcast2, List.reverse_reverse, h1, Option.map_some']

lemma broadcast2_trans {s t u : List ℕ} (h1 : broadcast2 s t = some t)
    (h2 : broadcast2 t u = some u) : broadcast2 s u = some u := by
  simp only [broadcast2, Option.map_eq_some'] at h1 h2
  obtain ⟨r0, h0, hr0⟩ := h1
  obtain ⟨r1, h1', hr1⟩ := h2
  have e0 : r0 = t.reverse := by rw [← hr0, List.reverse_reverse]
  have e1 : r1 = u.reverse := by rw [← hr1, List.reverse_reverse]
  subst e0
  subst e1
  simp only [broadcast2, broadcastRev_trans s.reverse t.reverse u.reverse h0 h1',
    Option.map_some', List.reverse_reverse]

lemma broadcast2_append_last {f g r : List ℕ} (x : ℕ) (h : broadcast2 f g = some r) :
    broadcast2 (f ++ [x]) (g ++ [x]) = some (r ++ [x]) := by
  simp only [broadcast2, Option.map_eq_some'] at h
  obtain ⟨r0, h0, rfl⟩ := h
  simp only [broadcast2, List.reverse_append, List.reverse_cons, List.reverse_nil,
    List.nil_append, List.cons_append]
  simp [broadcastRev, h0, broadcastDim_self]

/-- C6: for mutually broadcastable constructor parameter shapes, each compound
distribution's batch shape equals the broadcast of the shapes of all input
parameters (for DirichletMultinomial, the broadcast of total_count's shape with
concentration's shape minus its last axis), and every constructor parameter is
stored broadcast to that common batch shape (the concentration of
DirichletMultinomial keeping its category axis). -/
theorem compound_init_shapes (s1 s0 sn sa sm sc sr bs1 bs2 bs3 : List ℕ) (e : ℕ)
    (h1 : broadcast3 s1 s0 sn = some bs1)
    (ha : sa.getLast? = some e)
    (h2 : broadcast2 sa.dropLast sm = some bs2)
    (h3 : broadcast2 sc sr = some bs3) :
    BetaBinomial.init_shapes s1 s0 sn = some (bs1, bs1, bs1, bs1)
      ∧ DirichletMultinomial.init_shapes sa sm = some (bs2, bs2 ++ [e], bs2)
      ∧ GammaPoisson.init_shapes sc sr = some (bs3, bs3, bs3) := by
  refine ⟨?_, ?_, ?_⟩
  · cases hm : broadcast2 s1 s0 with
    | none => rw [broadcast3, hm] at h1; simp at h1
    | some r12 =>
      rw [broadcast3, hm] at h1
      simp only [Option.some_bind] at h1
      have a1 : broadcast2 s1 bs1 = some bs1 :=
        broadcast2_trans (broadcast2_absorb_left hm) (broadcast2_absorb_left h1)
      have a0 : broadcast2 s0 bs1 = some bs1 :=
        broadcast2_trans (broadcast2_absorb_right hm) (broadcast2_absorb_left h1)
      have an : broadcast2 sn bs1 = some bs1 := broadcast2_absorb_right h1
      simp [BetaBinomial.init_shapes, broadcast3, hm, h1, broadcast_to, a1, a0, an]
  · have hsa : sa.dropLast ++ [e] = sa :=
      List.dropLast_append_getLast? e (Option.mem_def.mpr ha)
    have step0 : broadcast2 sa.dropLast bs2 = some bs2 := broadcast2_absorb_left h2
    have haa : broadcast2 sa (bs2 ++ [e]) = some (bs2 ++ [e]) := by
      have := broadcast2_append_last e step0
      rwa [hsa] at this
    have hn : broadcast2 sm bs2 = some bs2 := broadcast2_absorb_right h2
    simp [DirichletMultinomial.init_shapes, ha, h2, broadcast_to, haa, hn]
  · have hc : broadcast2 sc bs3 = some bs3 := broadcast2_absorb_left h3
    have hr : broadcast2 sr bs3 = some bs3 := broadcast2_absorb_right h3
    simp [GammaPoisson.init_shapes, h3, broadcast_to, hc, hr]

theorem compound_init_shapes_witness :
    BetaBinomial.init_shapes [] [3] [] = some ([3], [3], [3], [3])
      ∧ DirichletMultinomial.init_shapes [2] [] = some ([], [2], [])
      ∧ GammaPoisson.init_shapes [2, 1] [4] = some ([2, 4], [2, 4], [2, 4]) := by
  exact compound_init_shapes [] [3] [] [2] [] [2, 1] [4] [3] [] [2, 4] 2
    (by rfl) (by rfl) (by rfl) (by rfl)

/-! ### C8: Welford covariance -/

lemma list_sum_centered {d : ℕ} (l : List (Fin d → ℝ)) (i j : Fin d) (c c' : ℝ) :
    (l.map fun x => (x i - c) * (x j - c')).sum
      = (l.map fun x => x i * x j).sum - c' * (l.map fun x => x i).sum
        - c * (l.map fun x => x j).sum + (l.length : ℝ) * (c * c') := by
  induction l with
  | nil => simp
  | cons y l ih =>
    simp only [List.map_cons, List.sum_cons, List.length_cons, ih]
    push_cast
    ring

lemma welford_mean_step (Si yi N : ℝ) (hN1 : N + 1 ≠ 0) :
    Si / N + (yi - Si / N) / (N + 1) = (Si + yi) / (N + 1) ∨ N = 0 := by
  by_cases hN : N = 0
  · exact Or.inr hN
  · left
    field_simp
    ring

lemma welford_m2_step (P Si Sj yi yj N : ℝ) (hN : N ≠ 0) (hN1 : N + 1 ≠ 0) :
    P - Sj / N * Si - Si / N * Sj + N * (Si / N * (Sj / N))
        + (yi - Si / N) * (yj - (Sj + yj) / (N + 1))
      = P - (Sj + yj) / (N + 1) * Si - (Si + yi) / (N + 1) * Sj
          + N * ((Si + yi) / (N + 1) * ((Sj + yj) / (N + 1)))
        + (yi - (Si + yi) / (N + 1)) * (yj - (Sj + yj) / (N + 1)) := by
  field_simp
  ring

lemma wc_run_append {d : ℕ} (l : List (Fin d → ℝ)) (y : Fin d → ℝ) :
    wc_run (l ++ [y]) = wc_update y (wc_run l) := by
  simp [wc_run, List.foldl_append]

lemma wc_run_spec {d : ℕ} (xs : List (Fin d → ℝ)) :
    (wc_run xs).n = xs.length
      ∧ (∀ i, (wc_run xs).mean i = sampleMean xs i)
      ∧ (∀ i j, (wc_run xs).m2 i j = sampleCov xs i j) := by
  induction xs using List.reverseRecOn with
  | nil =>
    refine ⟨rfl, fun i => ?_, fun i j => ?_⟩
    · simp [wc_run, wc_init, sampleMean]
    · simp [wc_run, wc_init, sampleCov]
  | append_singleton l y ih =>
    obtain ⟨hn, hmean, hm2⟩ := ih
    rw [wc_run_append]
    by_cases hl : l = []
    · subst hl
      refine ⟨?_, fun i => ?_, fun i j => ?_⟩
      · simp [wc_run, wc_init, wc_update]
      · simp [wc_run, wc_init, wc_update, sampleMean]
      · simp [wc_run, wc_init, wc_update, sampleMean, sampleCov]
    · have hN : (l.length : ℝ) ≠ 0 := by
        simpa using fun h => hl (List.length_eq_zero.mp h)
      have hN1 : (l.length : ℝ) + 1 ≠ 0 := by positivity
      have hlen : ((l ++ [y]).length : ℝ) = (l.length : ℝ) + 1 := by
        simp
      have hM : ∀ i0, sampleMean (l ++ [y]) i0
          = ((l.map fun x => x i0).sum + y i0) / ((l.length : ℝ) + 1) := by
        intro i0
        simp [sampleMean, List.sum_append]
      have hmean' : ∀ i0, (wc_update y (wc_run l)).mean i0
          = ((l.map fun x => x i0).sum + y i0) / ((l.length : ℝ) + 1) := by
        intro i0
        show (wc_run l).mean i0
            + (y i0 - (wc_run l).mean i0) / (((wc_run l).n + 1 : ℕ) : ℝ) = _
        rw [hmean i0, hn, sampleMean]
        push_cast
        rcases welford_mean_step ((l.map fun x => x i0).sum) (y i0)
          (l.length : ℝ) hN1 with h | h
        · exact h
        · exact absurd h hN
      refine ⟨?_, fun i => ?_, fun i j => ?_⟩
      · show (wc_run l).n + 1 = (l ++ [y]).length
        simp [hn]
      · rw [hmean' i, hM i]
      · show (wc_run l).m2 i j
            + (y i - (wc_run l).mean i) * (y j - (wc_update y (wc_run l)).mean j)
          = sampleCov (l ++ [y]) i j
        have hCl : sampleCov l i j
            = (l.map fun x => x i * x j).sum
              - sampleMean l j * (l.map fun x => x i).sum
              - sampleMean l i * (l.map fun x => x j).sum
              + (l.length : ℝ) * (sampleMean l i * sampleMean l j) := by
          rw [sampleCov, list_sum_centered]
        have hCr : sampleCov (l ++ [y]) i j
            = ((l.map fun x => x i * x j).sum
                - sampleMean (l ++ [y]) j * (l.map fun x => x i).sum
                - sampleMean (l ++ [y]) i * (l.map fun x => x j).sum
                + (l.length : ℝ)
                  * (sampleMean (l ++ [y]) i * sampleMean (l ++ [y]) j))
              + (y i - sampleMean (l ++ [y]) i) * (y j - sampleMean (l ++ [y]) j) := by
          rw [sampleCov]
          simp only [List.map_append, List.sum_append, List.map_cons, List.map_nil,
            List.sum_cons, List.sum_nil, add_zero]
          rw [list_sum_centered]
        rw [hm2 i j, hmean i, hCl, hCr, hmean' j, hM i, hM j, sampleMean, sampleMean]
        exact welford_m2_step ((l.map fun x => x i * x j).sum)
          ((l.map fun x => x i).sum) ((l.map fun x => x j).sum)
          (y i) (y j) (l.length : ℝ) hN hN1

lemma wc_diag_run_eq {d : ℕ} (xs : List (Fin d → ℝ)) :
    (wc_diag_run xs).n = (wc_run xs).n
      ∧ (∀ i, (wc_diag_run xs).mean i = (wc_run xs).mean i)
      ∧ (∀ i, (wc_diag_run xs).m2 i = (wc_run xs).m2 i i) := by
  suffices h : ∀ (s : WelfordState d) (t : WelfordDiagState d),
      t.n = s.n → (∀ i, t.mean i = s.mean i) → (∀ i, t.m2 i = s.m2 i i) →
      (xs.foldl (fun st x => wc_diag_update x st) t).n
          = (xs.foldl (fun st x => wc_update x st) s).n
        ∧ (∀ i, (xs.foldl (fun st x => wc_diag_update x st) t).mean i
            = (xs.foldl (fun st x => wc_update x st) s).mean i)
        ∧ (∀ i, (xs.foldl (fun st x => wc_diag_update x st) t).m2 i
            = (xs.foldl (fun st x => wc_update x st) s).m2 i i) by
    exact h (wc_init d) (wc_diag_init d) rfl (fun _ => rfl) (fun _ => rfl)
  induction xs with
  | nil => intro s t h1 h2 h3; exact ⟨h1, h2, h3⟩
  | cons y xs ih =>
    intro s t h1 h2 h3
    apply ih
    · simp [wc_update, wc_diag_update, h1]
    · intro i
      simp [wc_update, wc_diag_update, h1, h2]
    · intro i
      simp [wc_update, wc_diag_update, h1, h2, h3]

/-- C8: after `init` and one `update` per sample, `finalize` with
`regularize = False` yields the unbiased sample covariance — the accumulated
sum of outer products of (sample − sample mean) with itself divided by (n−1) —
and with `regularize = True` it yields `cov·n/(n+5) + 10⁻³·(5/(n+5))·I`; in
diagonal mode the same holds elementwise, with a vector of ones in place of
`I`. -/
theorem welford_covariance_finalize {d : ℕ} (xs : List (Fin d → ℝ)) (i j : Fin d)
    (h2 : 2 ≤ xs.length) :
    wc_final (wc_run xs) false i j = sampleCov xs i j / ((xs.length : ℝ) - 1)
      ∧ wc_final (wc_run xs) true i j
        = sampleCov xs i j / ((xs.length : ℝ) - 1) * (xs.length : ℝ)
            / ((xs.length : ℝ) + 5)
          + (1 / 1000) * (5 / ((xs.length : ℝ) + 5)) * (if i = j then 1 else 0)
      ∧ wc_diag_final (wc_diag_run xs) false i
        = sampleCov xs i i / ((xs.length : ℝ) - 1)
      ∧ wc_diag_final (wc_diag_run xs) true i
        = sampleCov xs i i / ((xs.length : ℝ) - 1) * (xs.length : ℝ)
            / ((xs.length : ℝ) + 5)
          + (1 / 1000) * (5 / ((xs.length : ℝ) + 5)) * 1 := by
  obtain ⟨hn, hmean, hm2⟩ := wc_run_spec xs
  obtain ⟨dn, dmean, dm2⟩ := wc_diag_run_eq xs
  refine ⟨?_, ?_, ?_, ?_⟩
  · simp [wc_final, hm2, hn]
  · simp [wc_final, hm2, hn]
  · simp [wc_diag_final, dm2, dn, hm2, hn]
  · simp [wc_diag_final, dm2, dn, hm2, hn]

theorem welford_covariance_finalize_witness :
    wc_final (wc_run [fun _ : Fin 1 => (1 : ℝ), fun _ => 3]) false 0 0
        = sampleCov [fun _ : Fin 1 => (1 : ℝ), fun _ => 3] 0 0
            / (([fun _ : Fin 1 => (1 : ℝ), fun _ => 3].length : ℝ) - 1)
      ∧ wc_final (wc_run [fun _ : Fin 1 => (1 : ℝ), fun _ => 3]) true 0 0
        = sampleCov [fun _ : Fin 1 => (1 : ℝ), fun _ => 3] 0 0
              / (([fun _ : Fin 1 => (1 : ℝ), fun _ => 3].length : ℝ) - 1)
              * ([fun _ : Fin 1 => (1 : ℝ), fun _ => 3].length : ℝ)
              / (([fun _ : Fin 1 => (1 : ℝ), fun _ => 3].length : ℝ) + 5)
            + (1 / 1000) * (5 / (([fun _ : Fin 1 => (1 : ℝ), fun _ => 3].length : ℝ) + 5))
              * (if (0 : Fin 1) = 0 then 1 else 0)
      ∧ wc_diag_final (wc_diag_run [fun _ : Fin 1 => (1 : ℝ), fun _ => 3]) false 0
        = sampleCov [fun _ : Fin 1 => (1 : ℝ), fun _ => 3] 0 0
            / (([fun _ : Fin 1 => (1 : ℝ), fun _ => 3].length : ℝ) - 1)
      ∧ wc_diag_final (wc_diag_run [fun _ : Fin 1 => (1 : ℝ), fun _ => 3]) true 0
        = sampleCov [fun _ : Fin 1 => (1 : ℝ), fun _ => 3] 0 0
              / (([fun _ : Fin 1 => (1 : ℝ), fun _ => 3].length : ℝ) - 1)
              * ([fun _ : Fin 1 => (1 : ℝ), fun _ => 3].length : ℝ)
              / (([fun _ : Fin 1 => (1 : ℝ), fun _ => 3].length : ℝ) + 5)
            + (1 / 1000) * (5 / (([fun _ : Fin 1 => (1 : ℝ), fun _ => 3].length : ℝ) + 5)) * 1 :=
  welford_covariance_finalize [fun _ : Fin 1 => (1 : ℝ), fun _ => 3] 0 0
    (by norm_num)

end NumPyro
